import Mathlib

/-!
Shallow embedding of `patch_money_dll.py`, a command-line utility that
applies four hardcoded one-byte patches to `mnyob99.dll`, with
verification, backup and rollback.

The target file is modelled as a size together with a total byte
function; reads past the end fail (Python's `f.read(1)[0]` raises
`IndexError` on an empty read).  The filesystem relevant to backup
naming is a list of existing path strings.  User answers to the two
confirmation prompts, access-check results and the success of the
backup copy are inputs of the orchestrator model; possible external
modification of the file between backup and patch application (the
time-of-check/time-of-use window the code guards against) is modelled
by a `tamper` function applied at that point.
-/

/-- One patch entry `(offset, original_byte, new_byte)` of the `PATCHES`
table in `patch_money_dll.py`. -/
structure PatchSpec where
  offset : Nat
  originalByte : Nat
  newByte : Nat
  deriving DecidableEq, Repr

/-- The fixed patch table `PATCHES` of `patch_money_dll.py`. -/
def PATCHES : List PatchSpec :=
  [⟨0x003FACE8, 0x85, 0x8D⟩,
   ⟨0x003FACED, 0x50, 0x51⟩,
   ⟨0x003FACF0, 0xFF, 0x85⟩,
   ⟨0x003FACF6, 0xE8, 0xB9⟩]

/-- The patch entry at a given index (default entry for out-of-range
indices; the code only ever indexes with 0..3). -/
def specAt (i : Nat) : PatchSpec := PATCHES.getD i ⟨0, 0, 0⟩

/-- A binary file: its length in bytes and the byte stored at each
offset (values at offsets `≥ size` are representation junk, unreachable
through `readByte`). -/
structure File where
  size : Nat
  data : Nat → Nat

/-- Reading `f.seek(off); f.read(1)[0]` — returns the byte at `off`, or fails
(`IndexError` on the empty read) when `off` is past the end. -/
def readByte (f : File) (off : Nat) : Option Nat :=
  if off < f.size then some (f.data off) else none

/-- Writing `f.seek(off); f.write(bytes([b]))` — writes one byte at `off`;
writing past the end extends the file, zero-filling the gap. -/
def writeByte (f : File) (off b : Nat) : File :=
  { size := max f.size (off + 1)
    data := fun i => if i = off then b else if i < f.size then f.data i else 0 }

/-- Loop body of `verify_patches`: walks the patch list with the
enumeration counter `i`, reading one byte per offset and classifying
it; `none` models an escaping exception (read past end of file). -/
def verifyAux (f : File) : Nat → List PatchSpec → Option (List Nat × List Nat)
  | _, [] => some ([], [])
  | i, p :: rest =>
    match readByte f p.offset with
    | none => none
    | some b =>
      match verifyAux f (i + 1) rest with
      | none => none
      | some (needed, applied) =>
        if b = p.originalByte then some (i :: needed, applied)
        else if b = p.newByte then some (needed, i :: applied)
        else some (needed, applied)

/-- Embedding of `verify_patches(file_path)`: returns the pair
`(patches_needed, patches_already_applied)` of index lists, or fails
when a read fails.  Indices whose byte matches neither expected value
are only warned about and appear in neither list. -/
def verify_patches (f : File) : Option (List Nat × List Nat) :=
  verifyAux f 0 PATCHES

/-- Embedding of `apply_patches(file_path, patches_to_apply)`: processes the given
indices in order; for each one re-reads the byte at the spec's offset,
returns `(some false, current file)` when it no longer equals the
expected original byte, otherwise writes the replacement byte and
continues.  `(none, current file)` models an escaping exception
(invalid index or read past end); `(some true, final file)` is
success. -/
def apply_patches (f : File) : List Nat → Option Bool × File
  | [] => (some true, f)
  | i :: rest =>
    match PATCHES[i]? with
    | none => (none, f)
    | some p =>
      match readByte f p.offset with
      | none => (none, f)
      | some b =>
        if b ≠ p.originalByte then (some false, f)
        else apply_patches (writeByte f p.offset p.newByte) rest

/-- The `k`-th backup path candidate tried by `create_backup`:
`<file>.backup` first, then `<file>.backup.1`, `<file>.backup.2`, … -/
def candidate (path : String) (k : Nat) : String :=
  if k = 0 then path ++ ".backup" else path ++ ".backup." ++ Nat.repr k

/-- The `while os.path.exists(backup_path)` loop of `create_backup`:
`bp` is the current candidate and `counter` the next numeric suffix.
Fuel bounds the iteration count; `backupLoop` is run with enough fuel
for the loop to terminate (`create_backup_first_free`). -/
def backupLoop (fs : List String) (path : String) : Nat → String → Nat → Option String
  | 0, _, _ => none
  | fuel + 1, bp, counter =>
    if bp ∈ fs then backupLoop fs path fuel (path ++ ".backup." ++ Nat.repr counter) (counter + 1)
    else some bp

/-- Embedding of `create_backup(file_path)`, naming part: the backup path chosen
given the list `fs` of already-existing paths.  (The subsequent
`shutil.copy2` is modelled in the orchestrator by `copyOk` and the
stored copy of the file contents.) -/
def create_backup (fs : List String) (path : String) : Option String :=
  backupLoop fs path (fs.length + 1) (path ++ ".backup") 1

/-- Environment of one run of `main`: the target file's contents,
existence and accessibility, the other existing paths (for backup
naming), whether the backup copy succeeds, the answers to the two
confirmation prompts, external interference between backup creation
and patch application, and the resolved target path. -/
structure WorldIn where
  file : File
  fexists : Bool
  access : Bool
  others : List String
  copyOk : Bool
  ans1 : Bool
  ans2 : Bool
  tamper : File → File
  path : String

/-- Observable outcome of one run of `main`: the process exit code,
the final contents of the target file, and the backup file (path and
contents) if one was created. -/
structure WorldOut where
  exitCode : Nat
  file : File
  backup : Option (String × File)

/-- The `main` orchestrator of `patch_money_dll.py`, from validation
onwards (the target path already resolved).  Exceptions raised by
validation, classification or backup creation are caught by the
top-level handler and mapped to exit code 1; a `False` return from
`apply_patches` triggers restoration from the backup and exit code 1;
an exception escaping `apply_patches` skips restoration. -/
def run (w : WorldIn) : WorldOut :=
  if w.fexists = false then ⟨1, w.file, none⟩
  else if w.access = false then ⟨1, w.file, none⟩
  else
    match verify_patches w.file with
    | none => ⟨1, w.file, none⟩
    | some (needed, applied) =>
      if needed = [] ∧ applied = [] ∧ w.ans1 = false then ⟨0, w.file, none⟩
      else if needed = [] then ⟨0, w.file, none⟩
      else if w.ans2 = false then ⟨0, w.file, none⟩
      else
        match create_backup w.others w.path with
        | none => ⟨1, w.file, none⟩
        | some bp =>
          if w.copyOk = false then ⟨1, w.file, none⟩
          else
            match apply_patches (w.tamper w.file) needed with
            | (some true, f2) => ⟨0, f2, some (bp, w.file)⟩
            | (some false, _) => ⟨1, w.file, some (bp, w.file)⟩
            | (none, f2) => ⟨1, f2, some (bp, w.file)⟩

/-- Inverse of `Nat.digitChar` on decimal digits. -/
def digitVal (c : Char) : Nat :=
  if c = '0' then 0 else if c = '1' then 1 else if c = '2' then 2 else
  if c = '3' then 3 else if c = '4' then 4 else if c = '5' then 5 else
  if c = '6' then 6 else if c = '7' then 7 else if c = '8' then 8 else
  if c = '9' then 9 else 10

/-- A 4 MiB file carrying the original bytes at all four patch
offsets. -/
def fOrig : File :=
  ⟨0x400000, fun i =>
    if i = 0x3FACE8 then 0x85 else if i = 0x3FACED then 0x50 else
    if i = 0x3FACF0 then 0xFF else if i = 0x3FACF6 then 0xE8 else 0⟩

/-- A 4 MiB file carrying the replacement bytes at all four patch
offsets. -/
def fPatched : File :=
  ⟨0x400000, fun i =>
    if i = 0x3FACE8 then 0x8D else if i = 0x3FACED then 0x51 else
    if i = 0x3FACF0 then 0x85 else if i = 0x3FACF6 then 0xB9 else 0⟩

/-- A 4 MiB file whose byte at offset 0x003FACF0 matches neither the
original nor the replacement. -/
def fBad : File :=
  ⟨0x400000, fun i =>
    if i = 0x3FACE8 then 0x85 else if i = 0x3FACED then 0x50 else
    if i = 0x3FACF6 then 0xE8 else 0⟩

/-- A world for the full-patch scenario: original file, everything
confirmed, no interference. -/
def wAll : WorldIn := ⟨fOrig, true, true, [], true, true, true, id, "mnyob99.dll"⟩

/-- A world in which the file is externally corrupted at offset
0x003FACF0 between backup and application. -/
def wTamper : WorldIn :=
  ⟨fOrig, true, true, [], true, true, true, fun g => writeByte g 0x3FACF0 0x00, "mnyob99.dll"⟩

/-- A world in which the backup copy fails. -/
def wNoCopy : WorldIn := ⟨fOrig, true, true, [], false, true, true, id, "mnyob99.dll"⟩

/-- A world whose file is already fully patched. -/
def wPatched : WorldIn := ⟨fPatched, true, true, [], true, true, true, id, "mnyob99.dll"⟩

/-- A world whose file is only 100 bytes long. -/
def wShort : WorldIn := ⟨⟨100, fun _ => 0⟩, true, true, [], true, true, true, id, "mnyob99.dll"⟩

theorem verify_eq_filters (f : File) (h : 0x3FACF6 < f.size) :
    verify_patches f = some
      ((List.range 4).filter fun i => decide (f.data (specAt i).offset = (specAt i).originalByte),
       (List.range 4).filter fun i =>
         decide (f.data (specAt i).offset ≠ (specAt i).originalByte ∧
                 f.data (specAt i).offset = (specAt i).newByte)) := by
  have h0 : readByte f 0x3FACE8 = some (f.data 0x3FACE8) := by
    simp only [readByte, if_pos (by omega : (0x3FACE8:Nat) < f.size)]
  have h1 : readByte f 0x3FACED = some (f.data 0x3FACED) := by
    simp only [readByte, if_pos (by omega : (0x3FACED:Nat) < f.size)]
  have h2 : readByte f 0x3FACF0 = some (f.data 0x3FACF0) := by
    simp only [readByte, if_pos (by omega : (0x3FACF0:Nat) < f.size)]
  have h3 : readByte f 0x3FACF6 = some (f.data 0x3FACF6) := by
    simp only [readByte, if_pos (by omega : (0x3FACF6:Nat) < f.size)]
  show verifyAux f 0 PATCHES = _
  simp only [PATCHES, verifyAux, h0, h1, h2, h3, specAt, List.getD,
    show List.range 4 = [0,1,2,3] from rfl, List.filter]
  split_ifs <;> simp_all

theorem apply_size : ∀ (l : List Nat) (f : File), (apply_patches f l).2.size = f.size := by
  intro l
  induction l with
  | nil => intro f; rfl
  | cons i rest ih =>
    intro f
    cases hp : PATCHES[i]? with
    | none => simp [apply_patches, hp]
    | some p =>
      cases hb : readByte f p.offset with
      | none => simp [apply_patches, hp, hb]
      | some b =>
        by_cases he : b = p.originalByte
        · have hoff : p.offset < f.size := by
            by_contra hc
            simp [readByte, hc] at hb
          have hoff2 : p.offset + 1 ≤ f.size := hoff
          simp only [apply_patches, hp, hb, he, ne_eq, not_true_eq_false, if_false, ih]
          simp [writeByte, Nat.max_eq_left hoff2]
        · simp [apply_patches, hp, hb, he]

theorem apply_append (f : File) (l1 l2 : List Nat) :
    apply_patches f (l1 ++ l2) =
      match apply_patches f l1 with
      | (some true, f1) => apply_patches f1 l2
      | r => r := by
  induction l1 generalizing f with
  | nil => simp [apply_patches]
  | cons i rest ih =>
    cases hp : PATCHES[i]? with
    | none => simp [apply_patches, hp]
    | some p =>
      cases hb : readByte f p.offset with
      | none => simp [apply_patches, hp, hb]
      | some b =>
        by_cases he : b = p.originalByte
        · simp only [List.cons_append, apply_patches, hp, hb, he, ne_eq, not_true_eq_false,
            if_false]
          exact ih _
        · simp [apply_patches, hp, hb, he]

theorem apply_frame : ∀ (l : List Nat) (f : File) (pos : Nat), pos < f.size →
    (∀ i ∈ l, ∀ p, PATCHES[i]? = some p → p.offset ≠ pos) →
    (apply_patches f l).2.data pos = f.data pos := by
  intro l
  induction l with
  | nil => intro f pos _ _; rfl
  | cons i rest ih =>
    intro f pos hpos hoff
    cases hp : PATCHES[i]? with
    | none => simp [apply_patches, hp]
    | some p =>
      cases hb : readByte f p.offset with
      | none => simp [apply_patches, hp, hb]
      | some b =>
        by_cases he : b = p.originalByte
        · have hlt : p.offset < f.size := by
            by_contra hc
            simp [readByte, hc] at hb
          simp only [apply_patches, hp, hb, he, ne_eq, not_true_eq_false, if_false]
          rw [ih _ pos]
          · have hne : pos ≠ p.offset := Ne.symm (hoff i (List.mem_cons_self i rest) p hp)
            simp [writeByte, hpos, hne]
          · simpa [writeByte] using Or.inl hpos
          · intro j hj q hq
            exact hoff j (List.mem_cons_of_mem i hj) q hq
        · simp [apply_patches, hp, hb, he]

theorem writeByte_size (f : File) (off b : Nat) (h : off < f.size) :
    (writeByte f off b).size = f.size := by
  simp [writeByte, Nat.max_eq_left (by omega : off + 1 ≤ f.size)]

theorem writeByte_data_self (f : File) (off b : Nat) : (writeByte f off b).data off = b := by
  simp [writeByte]

theorem writeByte_data_other (f : File) (off b pos : Nat) (h : pos ≠ off) (h2 : pos < f.size) :
    (writeByte f off b).data pos = f.data pos := by
  simp [writeByte, h, h2]

theorem readByte_writeByte_other (f : File) (off b pos : Nat) (h : pos ≠ off)
    (h2 : off < f.size) : readByte (writeByte f off b) pos = readByte f pos := by
  by_cases h3 : pos < f.size
  · simp [readByte, writeByte_size f off b h2, h3, writeByte_data_other f off b pos h h3]
  · simp [readByte, writeByte_size f off b h2, h3]

theorem specAt_getElem : ∀ i, i < 4 → PATCHES[i]? = some (specAt i) := by decide

theorem specAt_offset_ne : ∀ i, i < 4 → ∀ j, j < 4 → i ≠ j →
    (specAt i).offset ≠ (specAt j).offset := by decide

theorem specAt_offset_le : ∀ i, i < 4 → (specAt i).offset ≤ 0x3FACF6 := by decide

theorem specAt_orig_ne_new : ∀ i, i < 4 → (specAt i).originalByte ≠ (specAt i).newByte := by
  decide

theorem apply_good : ∀ (l : List Nat) (f : File), 0x3FACF6 < f.size → l.Nodup →
    (∀ i ∈ l, i < 4) →
    (∀ i ∈ l, readByte f (specAt i).offset = some ((specAt i).originalByte)) →
    (apply_patches f l).1 = some true ∧
    (∀ j, j < 4 → (apply_patches f l).2.data ((specAt j).offset) =
        if j ∈ l then (specAt j).newByte else f.data ((specAt j).offset)) := by
  intro l
  induction l with
  | nil =>
    intro f _ _ _ _
    exact ⟨rfl, fun j _ => by simp [apply_patches]⟩
  | cons i rest ih =>
    intro f hsz hnd hlt hrd
    have hi4 : i < 4 := hlt i (List.mem_cons_self i rest)
    have hp : PATCHES[i]? = some (specAt i) := specAt_getElem i hi4
    have hb : readByte f (specAt i).offset = some ((specAt i).originalByte) :=
      hrd i (List.mem_cons_self i rest)
    have hofflt : (specAt i).offset < f.size := by
      by_contra hc
      simp [readByte, hc] at hb
    have hnotin : i ∉ rest := (List.nodup_cons.mp hnd).1
    set f1 := writeByte f (specAt i).offset ((specAt i).newByte) with hf1
    have hstep : apply_patches f (i :: rest) = apply_patches f1 rest := by
      simp [apply_patches, hp, hb]
    have hrd1 : ∀ j ∈ rest, readByte f1 (specAt j).offset = some ((specAt j).originalByte) := by
      intro j hj
      have hj4 : j < 4 := hlt j (List.mem_cons_of_mem i hj)
      have hji : j ≠ i := fun hc => hnotin (hc ▸ hj)
      rw [hf1, readByte_writeByte_other _ _ _ _ (specAt_offset_ne j hj4 i hi4 hji) hofflt]
      exact hrd j (List.mem_cons_of_mem i hj)
    have hsz1 : 0x3FACF6 < f1.size := by
      rw [hf1, writeByte_size f _ _ hofflt]; exact hsz
    obtain ⟨hok, hdata⟩ := ih f1 hsz1 (List.nodup_cons.mp hnd).2
      (fun j hj => hlt j (List.mem_cons_of_mem i hj)) hrd1
    refine ⟨by rw [hstep]; exact hok, ?_⟩
    intro j hj4
    rw [hstep, hdata j hj4]
    by_cases hji : j = i
    · subst hji
      simp [hnotin, hf1, writeByte_data_self]
    · have hne := specAt_offset_ne j hj4 i hi4 hji
      by_cases hjr : j ∈ rest
      · simp [hjr, hji]
      · simp only [hjr, if_false, List.mem_cons, hji, false_or]
        rw [hf1, writeByte_data_other _ _ _ _ hne
          (by have := specAt_offset_le j hj4; omega)]

theorem digitVal_digitChar : ∀ d, d < 10 → digitVal (Nat.digitChar d) = d := by decide

theorem toDigitsCore_eq_digits (fuel : Nat) :
    ∀ (n : Nat) (acc : List Char), 0 < n → n < fuel →
    Nat.toDigitsCore 10 fuel n acc = ((Nat.digits 10 n).map Nat.digitChar).reverse ++ acc := by
  induction fuel with
  | zero => intro n acc _ h; omega
  | succ fuel ih =>
    intro n acc hn hfuel
    rw [Nat.digits_def' (by norm_num : 1 < 10) hn]
    simp only [Nat.toDigitsCore, List.map_cons, List.reverse_cons]
    by_cases hdiv : n / 10 = 0
    · simp [hdiv, Nat.digits_zero]
    · have h1 : n / 10 < n := Nat.div_lt_self hn (by norm_num)
      rw [if_neg hdiv, ih (n / 10) (Nat.digitChar (n % 10) :: acc)
        (Nat.pos_of_ne_zero hdiv) (by omega)]
      simp

theorem toDigits_eq (n : Nat) (hn : 0 < n) :
    Nat.toDigits 10 n = ((Nat.digits 10 n).map Nat.digitChar).reverse := by
  rw [Nat.toDigits, toDigitsCore_eq_digits (n + 1) n [] hn (by omega), List.append_nil]

theorem repr_inj_nat : ∀ m n : Nat, Nat.repr m = Nat.repr n → m = n := by
  have hdata : ∀ k : Nat, (Nat.repr k).data = Nat.toDigits 10 k := fun k => rfl
  have hdigits : ∀ m n : Nat, Nat.toDigits 10 m = Nat.toDigits 10 n → m = n := by
    intro m n h
    rcases Nat.eq_zero_or_pos m with hm | hm <;> rcases Nat.eq_zero_or_pos n with hn | hn
    · omega
    · subst hm
      rw [toDigits_eq n hn] at h
      have h' : List.map Nat.digitChar (Nat.digits 10 n) = ['0'] := by
        have := congrArg List.reverse h
        simpa using this.symm
      cases hd : Nat.digits 10 n with
      | nil => simp [hd] at h'
      | cons d rest =>
        rw [hd] at h'
        simp only [List.map_cons, List.cons.injEq] at h'
        have hrest : rest = [] := by
          rcases h' with ⟨_, h2⟩
          exact List.map_eq_nil_iff.mp h2
        have hd10 : d < 10 := Nat.digits_lt_base (by norm_num) (hd ▸ List.mem_cons_self d rest)
        have : d = digitVal '0' := by rw [← h'.1, digitVal_digitChar d hd10]
        have hdz : d = 0 := by simpa [digitVal] using this
        have := Nat.ofDigits_digits 10 n
        rw [hd, hrest, hdz] at this
        simp [Nat.ofDigits] at this
        omega
    · subst hn
      rw [toDigits_eq m hm] at h
      have h' : List.map Nat.digitChar (Nat.digits 10 m) = ['0'] := by
        have := congrArg List.reverse h
        simpa using this
      cases hd : Nat.digits 10 m with
      | nil => simp [hd] at h'
      | cons d rest =>
        rw [hd] at h'
        simp only [List.map_cons, List.cons.injEq] at h'
        have hrest : rest = [] := by
          rcases h' with ⟨_, h2⟩
          exact List.map_eq_nil_iff.mp h2
        have hd10 : d < 10 := Nat.digits_lt_base (by norm_num) (hd ▸ List.mem_cons_self d rest)
        have : d = digitVal '0' := by rw [← h'.1, digitVal_digitChar d hd10]
        have hdz : d = 0 := by simpa [digitVal] using this
        have := Nat.ofDigits_digits 10 m
        rw [hd, hrest, hdz] at this
        simp [Nat.ofDigits] at this
        omega
    · rw [toDigits_eq m hm, toDigits_eq n hn] at h
      have h2 : List.map Nat.digitChar (Nat.digits 10 m) =
          List.map Nat.digitChar (Nat.digits 10 n) := by
        have := congrArg List.reverse h
        simpa using this
      have hcong : ∀ k : Nat,
          List.map (digitVal ∘ Nat.digitChar) (Nat.digits 10 k) = Nat.digits 10 k := by
        intro k
        calc List.map (digitVal ∘ Nat.digitChar) (Nat.digits 10 k)
            = List.map id (Nat.digits 10 k) :=
              List.map_congr_left (fun d hd => digitVal_digitChar d
                (Nat.digits_lt_base (by norm_num) hd))
          _ = Nat.digits 10 k := List.map_id _
      have h3 : Nat.digits 10 m = Nat.digits 10 n := by
        have hm' := congrArg (List.map digitVal) h2
        rw [List.map_map, List.map_map, hcong, hcong] at hm'
        exact hm'
      exact Nat.digits_inj_iff.mp h3
  intro m n h
  exact hdigits m n (by rw [← hdata, ← hdata, h])

theorem candidate_inj (path : String) : Function.Injective (candidate path) := by
  have l7 : (".backup" : String).data.length = 7 := rfl
  have l8 : (".backup." : String).data.length = 8 := rfl
  intro j k h
  unfold candidate at h
  rcases j with _ | j <;> rcases k with _ | k
  · rfl
  · exfalso
    rw [if_pos rfl, if_neg (Nat.succ_ne_zero k)] at h
    have hlen := congrArg (fun s => s.data.length) h
    simp [String.data_append, List.length_append] at hlen
  · exfalso
    rw [if_pos rfl, if_neg (Nat.succ_ne_zero j)] at h
    have hlen := congrArg (fun s => s.data.length) h
    simp [String.data_append, List.length_append] at hlen
  · rw [if_neg (Nat.succ_ne_zero j), if_neg (Nat.succ_ne_zero k)] at h
    have hd := congrArg String.data h
    simp only [String.data_append] at hd
    have hr : (Nat.repr (j + 1)).data = (Nat.repr (k + 1)).data :=
      List.append_cancel_left hd
    have := repr_inj_nat (j + 1) (k + 1) (String.ext hr)
    omega

theorem exists_candidate_free (fs : List String) (path : String) :
    ∃ j, j ≤ fs.length ∧ candidate path j ∉ fs := by
  by_contra hc
  push_neg at hc
  have hsub : (List.range (fs.length + 1)).map (candidate path) ⊆ fs := by
    intro x hx
    rcases List.mem_map.mp hx with ⟨j, hj, rfl⟩
    exact hc j (Nat.lt_succ_iff.mp (List.mem_range.mp hj))
  have hnd : ((List.range (fs.length + 1)).map (candidate path)).Nodup :=
    (List.nodup_range _).map (candidate_inj path)
  have hsp := List.subperm_of_subset hnd hsub
  have hle := hsp.length_le
  simp only [List.length_map, List.length_range] at hle
  omega

theorem backupLoop_eq (fs : List String) (path : String) :
    ∀ (fuel k j : Nat), k ≤ j → j < k + fuel →
    candidate path j ∉ fs → (∀ i, k ≤ i → i < j → candidate path i ∈ fs) →
    backupLoop fs path fuel (candidate path k) (k + 1) = some (candidate path j) := by
  intro fuel
  induction fuel with
  | zero => intro k j h1 h2 _ _; omega
  | succ fuel ih =>
    intro k j h1 h2 hfree hocc
    by_cases hkj : k = j
    · subst hkj
      simp [backupLoop, hfree]
    · have hklt : k < j := lt_of_le_of_ne h1 hkj
      have hmem : candidate path k ∈ fs := hocc k le_rfl hklt
      have hcand : path ++ ".backup." ++ Nat.repr (k + 1) = candidate path (k + 1) := by
        simp [candidate]
      simp only [backupLoop, if_pos hmem, hcand]
      exact ih (k + 1) j hklt (by omega) hfree (fun i hik hij => hocc i (by omega) hij)

theorem create_backup_first_free (fs : List String) (path : String) :
    ∃ j, create_backup fs path = some (candidate path j) ∧ candidate path j ∉ fs ∧
      ∀ i, i < j → candidate path i ∈ fs := by
  obtain ⟨j0, hj0le, hj0free⟩ := exists_candidate_free fs path
  have hex : ∃ j, candidate path j ∉ fs := ⟨j0, hj0free⟩
  refine ⟨Nat.find hex, ?_, Nat.find_spec hex, fun i hi => not_not.mp (Nat.find_min hex hi)⟩
  have hstart : create_backup fs path =
      backupLoop fs path (fs.length + 1) (candidate path 0) (0 + 1) := by
    simp [create_backup, candidate]
  rw [hstart]
  exact backupLoop_eq fs path (fs.length + 1) 0 (Nat.find hex) (Nat.zero_le _)
    (by have := Nat.find_min' hex hj0free; omega)
    (Nat.find_spec hex) (fun i _ hij => not_not.mp (Nat.find_min hex hij))

theorem run_apply_stage (w : WorldIn) (needed applied : List Nat)
    (hfe : w.fexists = true) (hac : w.access = true)
    (hv : verify_patches w.file = some (needed, applied))
    (hne : needed ≠ []) (ha2 : w.ans2 = true) :
    ∃ bp, create_backup w.others w.path = some bp ∧
      run w = (if w.copyOk = false then ⟨1, w.file, none⟩
        else match apply_patches (w.tamper w.file) needed with
          | (some true, f2) => ⟨0, f2, some (bp, w.file)⟩
          | (some false, _) => ⟨1, w.file, some (bp, w.file)⟩
          | (none, f2) => ⟨1, f2, some (bp, w.file)⟩) := by
  obtain ⟨j, hcb, _, _⟩ := create_backup_first_free w.others w.path
  refine ⟨candidate w.path j, hcb, ?_⟩
  rw [run, hfe, hac]
  simp only [Bool.true_eq_false, if_false, hv]
  rw [if_neg (by simp [hne]), if_neg hne, if_neg (by simp [ha2]), hcb]

/-- C1: on a file of at least 1,000,000 bytes carrying the original
bytes at all four patch offsets, with both prompts answered
affirmatively, a successful backup copy and no external interference,
the workflow exits with code 0, classifies all four indices as needing
application, applies them in ascending order 0,1,2,3, creates and
preserves a backup holding the original contents, and leaves the
replacement bytes 0x8D, 0x51, 0x85, 0xB9 at the four offsets. -/
theorem C1_full_patch_scenario (w : WorldIn)
    (hfe : w.fexists = true) (hac : w.access = true)
    (hsz : 1000000 ≤ w.file.size)
    (h0 : readByte w.file 0x3FACE8 = some 0x85)
    (h1 : readByte w.file 0x3FACED = some 0x50)
    (h2 : readByte w.file 0x3FACF0 = some 0xFF)
    (h3 : readByte w.file 0x3FACF6 = some 0xE8)
    (ha1 : w.ans1 = true) (ha2 : w.ans2 = true)
    (hcp : w.copyOk = true) (htm : w.tamper = id) :
    (run w).exitCode = 0 ∧
    verify_patches w.file = some ([0, 1, 2, 3], []) ∧
    apply_patches w.file [0, 1, 2, 3] = (some true, (run w).file) ∧
    (∃ bp, (run w).backup = some (bp, w.file)) ∧
    (run w).file.data 0x3FACE8 = 0x8D ∧ (run w).file.data 0x3FACED = 0x51 ∧
    (run w).file.data 0x3FACF0 = 0x85 ∧ (run w).file.data 0x3FACF6 = 0xB9 := by
  have hszf : 0x3FACF6 < w.file.size := by
    by_contra hc
    simp [readByte, hc] at h3
  have hd0 : w.file.data 0x3FACE8 = 0x85 := by
    simpa [readByte, show (0x3FACE8:Nat) < w.file.size by omega] using h0
  have hd1 : w.file.data 0x3FACED = 0x50 := by
    simpa [readByte, show (0x3FACED:Nat) < w.file.size by omega] using h1
  have hd2 : w.file.data 0x3FACF0 = 0xFF := by
    simpa [readByte, show (0x3FACF0:Nat) < w.file.size by omega] using h2
  have hd3 : w.file.data 0x3FACF6 = 0xE8 := by
    simpa [readByte, show (0x3FACF6:Nat) < w.file.size by omega] using h3
  have hv : verify_patches w.file = some ([0, 1, 2, 3], []) := by
    rw [verify_eq_filters w.file hszf]
    norm_num [show List.range 4 = [0,1,2,3] from rfl, List.filter, specAt, PATCHES,
      hd0, hd1, hd2, hd3]
  have hreads : ∀ i ∈ [0, 1, 2, 3],
      readByte w.file (specAt i).offset = some ((specAt i).originalByte) := by
    intro i hi
    have : i = 0 ∨ i = 1 ∨ i = 2 ∨ i = 3 := by simpa using hi
    rcases this with rfl | rfl | rfl | rfl
    · exact h0
    · exact h1
    · exact h2
    · exact h3
  obtain ⟨happ, hdata⟩ := apply_good [0, 1, 2, 3] w.file hszf (by decide) (by decide) hreads
  obtain ⟨bp, hcb, hrun⟩ := run_apply_stage w [0, 1, 2, 3] [] hfe hac hv (by simp) ha2
  rcases hap : apply_patches w.file [0, 1, 2, 3] with ⟨b, f2⟩
  rw [hap] at happ hdata
  simp only at happ hdata
  subst happ
  rw [htm] at hrun
  simp only [id_eq, hap, hcp, Bool.true_eq_false, if_false] at hrun
  have e0 := hdata 0 (by omega)
  have e1 := hdata 1 (by omega)
  have e2 := hdata 2 (by omega)
  have e3 := hdata 3 (by omega)
  norm_num [specAt, PATCHES] at e0 e1 e2 e3
  rw [hrun]
  exact ⟨rfl, hv, by simp [hap], ⟨bp, rfl⟩, e0, e1, e2, e3⟩

theorem getElem_eq_specAt {i : Nat} {p : PatchSpec} (hp : PATCHES[i]? = some p) :
    specAt i = p := by
  have hi : i < PATCHES.length := by
    by_contra hc
    rw [List.getElem?_eq_none (by omega)] at hp
    exact Option.noConfusion hp
  rw [List.getElem?_eq_getElem hi] at hp
  rw [specAt, List.getD_eq_getElem _ _ hi]
  exact Option.some.inj hp

/-- C2: classification processes the four patch entries in index order,
reads one byte per offset, sorts each index into `needsApply` iff the
byte equals the original, into `alreadyApplied` iff it equals the
replacement, drops indices matching neither, keeps both lists in
ascending index order, and returns `([0,1,2,3], [])` on an all-original
file and `([], [0,1,2,3])` on a fully patched file. -/
theorem C2_classification (f : File) (h : 0x3FACF6 < f.size) :
    ∃ n a, verify_patches f = some (n, a) ∧
      (∀ i, i ∈ n ↔ i < 4 ∧ f.data (specAt i).offset = (specAt i).originalByte) ∧
      (∀ i, i ∈ a ↔ i < 4 ∧ f.data (specAt i).offset = (specAt i).newByte) ∧
      List.Pairwise (· < ·) n ∧ List.Pairwise (· < ·) a ∧
      ((∀ i, i < 4 → f.data (specAt i).offset = (specAt i).originalByte) →
        n = [0, 1, 2, 3] ∧ a = []) ∧
      ((∀ i, i < 4 → f.data (specAt i).offset = (specAt i).newByte) →
        n = [] ∧ a = [0, 1, 2, 3]) := by
  refine ⟨_, _, verify_eq_filters f h, ?_, ?_, ?_, ?_, ?_, ?_⟩
  · intro i
    simp only [List.mem_filter, List.mem_range, decide_eq_true_eq]
  · intro i
    simp only [List.mem_filter, List.mem_range, decide_eq_true_eq]
    constructor
    · rintro ⟨h1, _, h3⟩
      exact ⟨h1, h3⟩
    · rintro ⟨h1, h2⟩
      refine ⟨h1, ?_, h2⟩
      rw [h2]
      exact (specAt_orig_ne_new i h1).symm
  · exact List.Pairwise.sublist (List.filter_sublist _) (List.pairwise_lt_range 4)
  · exact List.Pairwise.sublist (List.filter_sublist _) (List.pairwise_lt_range 4)
  · intro hall
    have c0 := hall 0 (by omega)
    have c1 := hall 1 (by omega)
    have c2 := hall 2 (by omega)
    have c3 := hall 3 (by omega)
    norm_num [specAt, PATCHES] at c0 c1 c2 c3
    constructor <;>
      norm_num [show List.range 4 = [0,1,2,3] from rfl, List.filter, specAt, PATCHES,
        c0, c1, c2, c3]
  · intro hall
    have c0 := hall 0 (by omega)
    have c1 := hall 1 (by omega)
    have c2 := hall 2 (by omega)
    have c3 := hall 3 (by omega)
    norm_num [specAt, PATCHES] at c0 c1 c2 c3
    constructor <;>
      norm_num [show List.range 4 = [0,1,2,3] from rfl, List.filter, specAt, PATCHES,
        c0, c1, c2, c3]

/-- C3: `apply_patches` processes the given indices in order (applying
a decomposition over list concatenation, continuing past a prefix only
when it succeeded), and on re-reading a byte that differs from the
expected original it returns failure immediately with the file exactly
as it was at that point — nothing is written for the failing index or
any later one.  In the spec's example, when the byte at 0x003FACF0
matches neither 0xFF nor 0x85 at apply time, `apply_patches` on
[0,1,2,3] returns failure with indices 0 and 1 written and indices 2
and 3 untouched. -/
theorem C3_apply_order_early_failure :
    (∀ (f : File) (l1 l2 : List Nat),
      apply_patches f (l1 ++ l2) =
        match apply_patches f l1 with
        | (some true, f1) => apply_patches f1 l2
        | r => r) ∧
    (∀ (f : File) (i : Nat) (l : List Nat) (p : PatchSpec) (b : Nat),
      PATCHES[i]? = some p → readByte f p.offset = some b → b ≠ p.originalByte →
      apply_patches f (i :: l) = (some false, f)) ∧
    (∀ f : File, 0x3FACF6 < f.size →
      f.data 0x3FACE8 = 0x85 → f.data 0x3FACED = 0x50 →
      f.data 0x3FACF0 ≠ 0xFF → f.data 0x3FACF0 ≠ 0x85 →
      apply_patches f [0, 1, 2, 3] =
        (some false, writeByte (writeByte f 0x3FACE8 0x8D) 0x3FACED 0x51) ∧
      (apply_patches f [0, 1, 2, 3]).2.data 0x3FACF0 = f.data 0x3FACF0 ∧
      (apply_patches f [0, 1, 2, 3]).2.data 0x3FACF6 = f.data 0x3FACF6) := by
  refine ⟨apply_append, ?_, ?_⟩
  · intro f i l p b hp hb hne
    simp [apply_patches, hp, hb, hne]
  · intro f hsz h0 h1 h2 h2'
    have r0 : readByte f 0x3FACE8 = some 0x85 := by
      simp [readByte, show (0x3FACE8:Nat) < f.size by omega, h0]
    set f1 := writeByte f 0x3FACE8 0x8D with hf1
    have hs1 : f1.size = f.size := writeByte_size f _ _ (by omega)
    have r1 : readByte f1 0x3FACED = some 0x50 := by
      rw [hf1, readByte_writeByte_other f _ _ _ (by norm_num) (by omega)]
      simp [readByte, show (0x3FACED:Nat) < f.size by omega, h1]
    set f2 := writeByte f1 0x3FACED 0x51 with hf2
    have hs2 : f2.size = f.size := by
      rw [hf2, writeByte_size f1 _ _ (by omega), hs1]
    have hd2 : f2.data 0x3FACF0 = f.data 0x3FACF0 := by
      rw [hf2, writeByte_data_other f1 _ _ _ (by norm_num) (by omega), hf1,
        writeByte_data_other f _ _ _ (by norm_num) (by omega)]
    have r2 : readByte f2 0x3FACF0 = some (f.data 0x3FACF0) := by
      simp [readByte, show (0x3FACF0:Nat) < f2.size by omega, hd2]
    have happ : apply_patches f [0, 1, 2, 3] = (some false, f2) := by
      have hp0 : PATCHES[0]? = some (specAt 0) := specAt_getElem 0 (by omega)
      have hp1 : PATCHES[1]? = some (specAt 1) := specAt_getElem 1 (by omega)
      have hp2 : PATCHES[2]? = some (specAt 2) := specAt_getElem 2 (by omega)
      show apply_patches f (0 :: [1, 2, 3]) = (some false, f2)
      rw [show (specAt 0) = ⟨0x3FACE8, 0x85, 0x8D⟩ from rfl] at hp0
      rw [show (specAt 1) = ⟨0x3FACED, 0x50, 0x51⟩ from rfl] at hp1
      rw [show (specAt 2) = ⟨0x3FACF0, 0xFF, 0x85⟩ from rfl] at hp2
      simp only [apply_patches, hp0, r0]
      norm_num
      rw [← hf1]
      simp only [apply_patches, hp1, r1]
      norm_num
      rw [← hf2]
      simp only [apply_patches, hp2, r2]
      simp [h2]
    refine ⟨by rw [happ, hf2, hf1], ?_, ?_⟩
    · rw [happ, hd2]
    · rw [happ, hf2, writeByte_data_other f1 _ _ _ (by norm_num) (by omega), hf1,
        writeByte_data_other f _ _ _ (by norm_num) (by omega)]

/-- C4: whenever `apply_patches` returns failure, the orchestrator
restores the target from the backup and exits with code 1, leaving the
target byte-for-byte identical to the pre-backup original (the backup
record holds exactly the original contents). -/
theorem C4_failure_restores (w : WorldIn) (n a : List Nat)
    (hfe : w.fexists = true) (hac : w.access = true)
    (hv : verify_patches w.file = some (n, a)) (hn : n ≠ [])
    (ha2 : w.ans2 = true) (hcp : w.copyOk = true)
    (hfail : (apply_patches (w.tamper w.file) n).1 = some false) :
    (run w).exitCode = 1 ∧ (run w).file = w.file ∧
    ∃ bp, (run w).backup = some (bp, w.file) := by
  obtain ⟨bp, hcb, hrun⟩ := run_apply_stage w n a hfe hac hv hn ha2
  rcases hap : apply_patches (w.tamper w.file) n with ⟨b, f2⟩
  rw [hap] at hfail
  simp only at hfail
  subst hfail
  simp only [hap, hcp, Bool.true_eq_false, if_false] at hrun
  rw [hrun]
  exact ⟨rfl, rfl, bp, rfl⟩

theorem run_backup_none_unchanged (w : WorldIn) (hb : (run w).backup = none) :
    (run w).file = w.file := by
  by_cases h1 : w.fexists = false
  · simp [run, h1]
  · by_cases h2 : w.access = false
    · simp [run, h1, h2]
    · rcases hv : verify_patches w.file with _ | ⟨n, a⟩
      · simp [run, h1, h2, hv]
      · by_cases h3 : n = [] ∧ a = [] ∧ w.ans1 = false
        · simp [run, h1, h2, hv, h3]
        · by_cases h4 : n = []
          · simp [run, h1, h2, hv, h3, h4]
          · by_cases h5 : w.ans2 = false
            · simp [run, h1, h2, hv, h3, h4, h5]
            · obtain ⟨j, hcb, _, _⟩ := create_backup_first_free w.others w.path
              by_cases h6 : w.copyOk = false
              · simp [run, h1, h2, hv, h3, h4, h5, hcb, h6]
              · exfalso
                rcases hap : apply_patches (w.tamper w.file) n with ⟨bo, f2⟩
                rcases bo with _ | b
                · simp [run, h1, h2, hv, h3, h4, h5, hcb, h6, hap] at hb
                · rcases b <;>
                    simp [run, h1, h2, hv, h3, h4, h5, hcb, h6, hap] at hb

theorem run_nothing_to_do (w : WorldIn) (a : List Nat)
    (hfe : w.fexists = true) (hac : w.access = true)
    (hv : verify_patches w.file = some ([], a)) (ha : a ≠ []) :
    run w = ⟨0, w.file, none⟩ := by
  rw [run, hfe, hac]
  simp only [Bool.true_eq_false, if_false, hv]
  rw [if_neg (by simp [ha])]
  simp

/-- C5: no patch byte is ever written without a successfully created
backup — whenever the run ends with no backup record, the target file
is unchanged — and when the backup copy fails at the backup step, the
workflow aborts with exit code 1, no backup and no mutation. -/
theorem C5_backup_before_mutation :
    (∀ w : WorldIn, (run w).backup = none → (run w).file = w.file) ∧
    (∀ (w : WorldIn) (n a : List Nat), w.fexists = true → w.access = true →
      verify_patches w.file = some (n, a) → n ≠ [] → w.ans2 = true →
      w.copyOk = false → run w = ⟨1, w.file, none⟩) := by
  refine ⟨run_backup_none_unchanged, ?_⟩
  intro w n a hfe hac hv hn ha2 hcp
  obtain ⟨j, hcb, _, _⟩ := create_backup_first_free w.others w.path
  rw [run, hfe, hac]
  simp only [Bool.true_eq_false, if_false, hv]
  rw [if_neg (by simp [hn]), if_neg hn, if_neg (by simp [ha2])]
  simp only [hcb]
  rw [if_pos hcp]

/-- C6: for every filesystem and target path, backup naming returns the
first name in the sequence `<file>.backup`, `<file>.backup.1`,
`<file>.backup.2`, … that does not already exist, and therefore never
overwrites an existing file. -/
theorem C6_backup_naming (fs : List String) (path : String) :
    candidate path 0 = path ++ ".backup" ∧
    (∀ k, candidate path (k + 1) = path ++ ".backup." ++ Nat.repr (k + 1)) ∧
    ∃ j, create_backup fs path = some (candidate path j) ∧
      candidate path j ∉ fs ∧ ∀ i, i < j → candidate path i ∈ fs :=
  ⟨rfl, fun k => by simp [candidate], create_backup_first_free fs path⟩

/-- C7: when classification finds nothing to apply but at least one
patch already applied, the workflow reports nothing to do and exits
with code 0, creating no backup and writing nothing. -/
theorem C7_nothing_to_do_exit0 (w : WorldIn) (a : List Nat)
    (hfe : w.fexists = true) (hac : w.access = true)
    (hv : verify_patches w.file = some ([], a)) (ha : a ≠ []) :
    run w = ⟨0, w.file, none⟩ :=
  run_nothing_to_do w a hfe hac hv ha

/-- C8: a needsApply set produced by classification always applies
successfully, and a second run on the resulting file classifies every
previously-needed and previously-applied index as already applied,
needs nothing, and exits 0 without backup or write. -/
theorem C8_idempotent_second_run (f : File) (n a : List Nat) (h : 0x3FACF6 < f.size)
    (hv : verify_patches f = some (n, a)) (hn : n ≠ []) :
    (apply_patches f n).1 = some true ∧
    verify_patches (apply_patches f n).2 =
      some ([], (List.range 4).filter fun i => decide (i ∈ n ∨ i ∈ a)) ∧
    (∀ w : WorldIn, w.file = (apply_patches f n).2 → w.fexists = true → w.access = true →
      run w = ⟨0, (apply_patches f n).2, none⟩) := by
  have hfilters := verify_eq_filters f h
  rw [hv] at hfilters
  obtain ⟨hneq, haeq⟩ : n = _ ∧ a = _ := by
    have := Option.some.inj hfilters
    exact ⟨congrArg Prod.fst this, congrArg Prod.snd this⟩
  have hnodup : n.Nodup := by
    rw [hneq]
    exact List.Nodup.filter _ (List.nodup_range 4)
  have hmemn : ∀ i ∈ n, i < 4 ∧ f.data (specAt i).offset = (specAt i).originalByte := by
    intro i hi
    rw [hneq] at hi
    have := List.mem_filter.mp hi
    exact ⟨List.mem_range.mp this.1, of_decide_eq_true this.2⟩
  have hmema : ∀ i, i < 4 → i ∉ n →
      (i ∈ a ↔ f.data (specAt i).offset ≠ (specAt i).originalByte ∧
        f.data (specAt i).offset = (specAt i).newByte) := by
    intro i hi4 _
    rw [haeq]
    simp [List.mem_filter, List.mem_range, hi4]
  have hreads : ∀ i ∈ n, readByte f (specAt i).offset = some ((specAt i).originalByte) := by
    intro i hi
    obtain ⟨hi4, hd⟩ := hmemn i hi
    have := specAt_offset_le i hi4
    simp [readByte, show (specAt i).offset < f.size by omega, hd]
  obtain ⟨hok, hdata⟩ := apply_good n f h hnodup (fun i hi => (hmemn i hi).1) hreads
  have hs1 : (apply_patches f n).2.size = f.size := apply_size n f
  have h1 : 0x3FACF6 < (apply_patches f n).2.size := by omega
  have hver1 := verify_eq_filters (apply_patches f n).2 h1
  have hneed1 : ((List.range 4).filter fun i =>
      decide ((apply_patches f n).2.data (specAt i).offset = (specAt i).originalByte)) = [] := by
    rw [List.filter_eq_nil_iff]
    intro i hi
    have hi4 := List.mem_range.mp hi
    rw [decide_eq_true_eq, hdata i hi4]
    by_cases hin : i ∈ n
    · simp only [hin, if_true]
      exact (specAt_orig_ne_new i hi4).symm
    · simp only [hin, if_false]
      intro hc
      exact hin (hneq ▸ List.mem_filter.mpr ⟨hi, decide_eq_true hc⟩)
  have happ1 : ((List.range 4).filter fun i =>
      decide ((apply_patches f n).2.data (specAt i).offset ≠ (specAt i).originalByte ∧
        (apply_patches f n).2.data (specAt i).offset = (specAt i).newByte)) =
      (List.range 4).filter fun i => decide (i ∈ n ∨ i ∈ a) := by
    apply List.filter_congr
    intro i hi
    have hi4 := List.mem_range.mp hi
    rw [hdata i hi4]
    by_cases hin : i ∈ n
    · simp only [hin, if_true]
      simp [hin, (specAt_orig_ne_new i hi4).symm]
    · simp only [hin, if_false]
      rw [decide_eq_decide]
      rw [hmema i hi4 hin]
      simp [hin]
  rw [hneed1, happ1] at hver1
  refine ⟨hok, hver1, ?_⟩
  intro w hw hfe hac
  have hane : ((List.range 4).filter fun i => decide (i ∈ n ∨ i ∈ a)) ≠ [] := by
    obtain ⟨i, hi⟩ := List.exists_mem_of_ne_nil n hn
    have hi4 := (hmemn i hi).1
    exact List.ne_nil_of_mem (List.mem_filter.mpr
      ⟨List.mem_range.mpr hi4, decide_eq_true (Or.inl hi)⟩)
  have := run_nothing_to_do w _ hfe hac (by rw [hw, hver1]) hane
  rw [this, hw]

/-- C9: frame property — applying any list of patch indices preserves
the file's length and leaves every byte position inside the file other
than the offsets of the given indices unchanged, whether the
application succeeds or fails. -/
theorem C9_apply_frame (l : List Nat) (f : File) (pos : Nat) (hpos : pos < f.size)
    (hout : ∀ i ∈ l, (specAt i).offset ≠ pos) :
    (apply_patches f l).2.size = f.size ∧ (apply_patches f l).2.data pos = f.data pos := by
  refine ⟨apply_size l f, apply_frame l f pos hpos ?_⟩
  intro i hi p hp
  rw [← getElem_eq_specAt hp]
  exact hout i hi

/-- C10: on a file too short to contain the patch offsets (in
particular any file of at most 0x003FACF6 bytes, which includes every
file below the 1,000,000-byte warning threshold), classification fails
with an exception rather than returning lists, and the orchestrator
catches it and exits with code 1; the small-size check is only a
warning and does not prevent this. -/
theorem C10_short_file_exit1 (w : WorldIn) (hfe : w.fexists = true)
    (hac : w.access = true) (hsz : w.file.size ≤ 0x3FACF6) :
    verify_patches w.file = none ∧ run w = ⟨1, w.file, none⟩ := by
  have hr3 : readByte w.file 0x3FACF6 = none := by
    simp only [readByte]
    rw [if_neg (by omega)]
  have hv : verify_patches w.file = none := by
    rw [verify_patches, PATCHES]
    rcases h0 : readByte w.file 0x3FACE8 with _ | b0
    · simp [verifyAux, h0]
    · rcases h1 : readByte w.file 0x3FACED with _ | b1
      · simp [verifyAux, h0, h1]
      · rcases h2 : readByte w.file 0x3FACF0 with _ | b2
        · simp [verifyAux, h0, h1, h2]
        · simp [verifyAux, h0, h1, h2, hr3]
  refine ⟨hv, ?_⟩
  rw [run, hfe, hac]
  simp [hv]

theorem C1_witness :
    wAll.fexists = true ∧ wAll.access = true ∧ 1000000 ≤ wAll.file.size ∧
    readByte wAll.file 0x3FACE8 = some 0x85 ∧ readByte wAll.file 0x3FACED = some 0x50 ∧
    readByte wAll.file 0x3FACF0 = some 0xFF ∧ readByte wAll.file 0x3FACF6 = some 0xE8 ∧
    wAll.ans1 = true ∧ wAll.ans2 = true ∧ wAll.copyOk = true ∧ wAll.tamper = id ∧
    ((run wAll).exitCode = 0 ∧
      verify_patches wAll.file = some ([0, 1, 2, 3], []) ∧
      apply_patches wAll.file [0, 1, 2, 3] = (some true, (run wAll).file) ∧
      (∃ bp, (run wAll).backup = some (bp, wAll.file)) ∧
      (run wAll).file.data 0x3FACE8 = 0x8D ∧ (run wAll).file.data 0x3FACED = 0x51 ∧
      (run wAll).file.data 0x3FACF0 = 0x85 ∧ (run wAll).file.data 0x3FACF6 = 0xB9) :=
  ⟨rfl, rfl, by decide, by decide, by decide, by decide, by decide, rfl, rfl, rfl, rfl,
    C1_full_patch_scenario wAll rfl rfl (by decide) (by decide) (by decide) (by decide)
      (by decide) rfl rfl rfl rfl⟩

theorem C2_witness :
    0x3FACF6 < fOrig.size ∧
    (∃ n a, verify_patches fOrig = some (n, a) ∧
      (∀ i, i ∈ n ↔ i < 4 ∧ fOrig.data (specAt i).offset = (specAt i).originalByte) ∧
      (∀ i, i ∈ a ↔ i < 4 ∧ fOrig.data (specAt i).offset = (specAt i).newByte) ∧
      List.Pairwise (· < ·) n ∧ List.Pairwise (· < ·) a ∧
      ((∀ i, i < 4 → fOrig.data (specAt i).offset = (specAt i).originalByte) →
        n = [0, 1, 2, 3] ∧ a = []) ∧
      ((∀ i, i < 4 → fOrig.data (specAt i).offset = (specAt i).newByte) →
        n = [] ∧ a = [0, 1, 2, 3])) :=
  ⟨by decide, C2_classification fOrig (by decide)⟩

theorem C3_witness :
    0x3FACF6 < fBad.size ∧ fBad.data 0x3FACE8 = 0x85 ∧ fBad.data 0x3FACED = 0x50 ∧
    fBad.data 0x3FACF0 ≠ 0xFF ∧ fBad.data 0x3FACF0 ≠ 0x85 ∧
    (apply_patches fBad [0, 1, 2, 3] =
        (some false, writeByte (writeByte fBad 0x3FACE8 0x8D) 0x3FACED 0x51) ∧
      (apply_patches fBad [0, 1, 2, 3]).2.data 0x3FACF0 = fBad.data 0x3FACF0 ∧
      (apply_patches fBad [0, 1, 2, 3]).2.data 0x3FACF6 = fBad.data 0x3FACF6) :=
  ⟨by decide, by decide, by decide, by decide, by decide,
    C3_apply_order_early_failure.2.2 fBad (by decide) (by decide) (by decide)
      (by decide) (by decide)⟩

theorem C4_witness :
    wTamper.fexists = true ∧ wTamper.access = true ∧
    verify_patches wTamper.file = some ([0, 1, 2, 3], []) ∧ ([0, 1, 2, 3] : List Nat) ≠ [] ∧
    wTamper.ans2 = true ∧ wTamper.copyOk = true ∧
    (apply_patches (wTamper.tamper wTamper.file) [0, 1, 2, 3]).1 = some false ∧
    ((run wTamper).exitCode = 1 ∧ (run wTamper).file = wTamper.file ∧
      ∃ bp, (run wTamper).backup = some (bp, wTamper.file)) :=
  ⟨rfl, rfl, by decide, by decide, rfl, rfl, by decide,
    C4_failure_restores wTamper [0, 1, 2, 3] [] rfl rfl (by decide) (by decide) rfl rfl
      (by decide)⟩

theorem C5_witness :
    wNoCopy.fexists = true ∧ wNoCopy.access = true ∧
    verify_patches wNoCopy.file = some ([0, 1, 2, 3], []) ∧ ([0, 1, 2, 3] : List Nat) ≠ [] ∧
    wNoCopy.ans2 = true ∧ wNoCopy.copyOk = false ∧
    run wNoCopy = ⟨1, wNoCopy.file, none⟩ :=
  ⟨rfl, rfl, by decide, by decide, rfl, rfl,
    C5_backup_before_mutation.2 wNoCopy [0, 1, 2, 3] [] rfl rfl (by decide) (by decide)
      rfl rfl⟩

theorem C6_witness :
    candidate "mnyob99.dll" 0 = "mnyob99.dll" ++ ".backup" ∧
    (∀ k, candidate "mnyob99.dll" (k + 1) =
      "mnyob99.dll" ++ ".backup." ++ Nat.repr (k + 1)) ∧
    ∃ j, create_backup ["mnyob99.dll.backup"] "mnyob99.dll" =
        some (candidate "mnyob99.dll" j) ∧
      candidate "mnyob99.dll" j ∉ ["mnyob99.dll.backup"] ∧
      ∀ i, i < j → candidate "mnyob99.dll" i ∈ ["mnyob99.dll.backup"] :=
  C6_backup_naming ["mnyob99.dll.backup"] "mnyob99.dll"

theorem C7_witness :
    wPatched.fexists = true ∧ wPatched.access = true ∧
    verify_patches wPatched.file = some ([], [0, 1, 2, 3]) ∧ ([0, 1, 2, 3] : List Nat) ≠ [] ∧
    run wPatched = ⟨0, wPatched.file, none⟩ :=
  ⟨rfl, rfl, by decide, by decide,
    C7_nothing_to_do_exit0 wPatched [0, 1, 2, 3] rfl rfl (by decide) (by decide)⟩

theorem C8_witness :
    0x3FACF6 < fOrig.size ∧ verify_patches fOrig = some ([0, 1, 2, 3], []) ∧
    ([0, 1, 2, 3] : List Nat) ≠ [] ∧
    ((apply_patches fOrig [0, 1, 2, 3]).1 = some true ∧
      verify_patches (apply_patches fOrig [0, 1, 2, 3]).2 =
        some ([], (List.range 4).filter fun i =>
          decide (i ∈ ([0, 1, 2, 3] : List Nat) ∨ i ∈ ([] : List Nat))) ∧
      (∀ w : WorldIn, w.file = (apply_patches fOrig [0, 1, 2, 3]).2 →
        w.fexists = true → w.access = true →
        run w = ⟨0, (apply_patches fOrig [0, 1, 2, 3]).2, none⟩)) :=
  ⟨by decide, by decide, by decide,
    C8_idempotent_second_run fOrig [0, 1, 2, 3] [] (by decide) (by decide) (by decide)⟩

theorem C9_witness :
    0 < fOrig.size ∧ (∀ i ∈ ([0, 1, 2, 3] : List Nat), (specAt i).offset ≠ 0) ∧
    ((apply_patches fOrig [0, 1, 2, 3]).2.size = fOrig.size ∧
      (apply_patches fOrig [0, 1, 2, 3]).2.data 0 = fOrig.data 0) :=
  ⟨by decide, by decide,
    C9_apply_frame [0, 1, 2, 3] fOrig 0 (by decide) (by decide)⟩

theorem C10_witness :
    wShort.fexists = true ∧ wShort.access = true ∧ wShort.file.size ≤ 0x3FACF6 ∧
    (verify_patches wShort.file = none ∧ run wShort = ⟨1, wShort.file, none⟩) :=
  ⟨rfl, rfl, by decide, C10_short_file_exit1 wShort rfl rfl (by decide)⟩
